import Mathlib

/-!
Verification of the remote tabular data access layer of the ASISCIMMA
repository (rate limiter, TTL cache, retry wrapper, grid parser,
attendance statistics and the attendance write path), shallowly embedded
from `src/utils/google_sheets.py`, `src/utils/cache_manager.py`,
`src/utils/send_apoderados.py` and `src/pages/secretaria_dashboard.py`.

Time is modelled by rational numbers, Python dicts by association lists
(with a no-duplicate-keys hypothesis where dict uniqueness matters), and
Python strings by Lean strings with small helpers that mirror
`str.lower` / `str.upper` (ASCII plus the accented letters that occur in
the repository) and `str.strip`.
-/

namespace ASISCIMMA

/-! Section: Association lists: the model of Python dicts -/

/-- Dict assignment `d[k] = v`: replace the first binding of `k`, or append. -/
def assocSet (k : String) (v : β) : List (String × β) → List (String × β)
  | [] => [(k, v)]
  | (k₀, v₀) :: rest => if k₀ = k then (k, v) :: rest else (k₀, v₀) :: assocSet k v rest

/-- Dict lookup `d.get(k)`. -/
def assocGet (k : String) : List (String × β) → Option β
  | [] => none
  | (k₀, v₀) :: rest => if k₀ = k then some v₀ else assocGet k rest

/-- Dict removal `del d[k]` (removes the first binding). -/
def assocDel (k : String) : List (String × β) → List (String × β)
  | [] => []
  | (k₀, v₀) :: rest => if k₀ = k then rest else (k₀, v₀) :: assocDel k rest

theorem assocGet_set_self (k : String) (v : β) (l : List (String × β)) :
    assocGet k (assocSet k v l) = some v := by
  induction l with
  | nil => simp [assocSet, assocGet]
  | cons hd tl ih =>
    obtain ⟨k₀, v₀⟩ := hd
    by_cases h : k₀ = k
    · simp [assocSet, assocGet, h]
    · simp [assocSet, assocGet, h, ih]

theorem assocGet_set_ne (h : k₀ ≠ k) (v : β) (l : List (String × β)) :
    assocGet k (assocSet k₀ v l) = assocGet k l := by
  induction l with
  | nil => simp [assocSet, assocGet, h]
  | cons hd tl ih =>
    obtain ⟨k₁, v₁⟩ := hd
    by_cases h₁ : k₁ = k₀
    · subst h₁; simp [assocSet, assocGet, h]
    · by_cases h₂ : k₁ = k <;> simp [assocSet, assocGet, h₁, h₂, ih, Ne.symm h]

theorem assocGet_eq_none_of_not_mem (l : List (String × β))
    (h : k ∉ l.map Prod.fst) : assocGet k l = none := by
  induction l with
  | nil => rfl
  | cons hd tl ih =>
    obtain ⟨k₀, v₀⟩ := hd
    simp only [List.map_cons, List.mem_cons] at h
    push_neg at h
    simp [assocGet, Ne.symm h.1, ih h.2]

theorem mem_keys_of_assocGet (l : List (String × β)) (h : assocGet k l = some v) :
    k ∈ l.map Prod.fst := by
  induction l with
  | nil => simp [assocGet] at h
  | cons hd tl ih =>
    obtain ⟨k₀, v₀⟩ := hd
    by_cases h₀ : k₀ = k
    · simp [h₀]
    · simp only [assocGet, if_neg h₀] at h
      simp [ih h]

theorem keys_assocSet_subset (k : String) (v : β) (l : List (String × β)) :
    ∀ a ∈ (assocSet k v l).map Prod.fst, a = k ∨ a ∈ l.map Prod.fst := by
  induction l with
  | nil => simp [assocSet]
  | cons hd tl ih =>
    obtain ⟨k₀, v₀⟩ := hd
    by_cases h : k₀ = k
    · subst h; simp [assocSet]
    · intro a ha
      simp only [assocSet, if_neg h, List.map_cons, List.mem_cons] at ha
      rcases ha with ha | ha
      · right; simp [ha]
      · rcases ih a ha with h₁ | h₁
        · left; exact h₁
        · right; simp [h₁]

theorem nodup_keys_assocSet (k : String) (v : β) (l : List (String × β))
    (h : (l.map Prod.fst).Nodup) : ((assocSet k v l).map Prod.fst).Nodup := by
  induction l with
  | nil => simp [assocSet]
  | cons hd tl ih =>
    obtain ⟨k₀, v₀⟩ := hd
    simp only [List.map_cons, List.nodup_cons] at h
    by_cases hk : k₀ = k
    · subst hk; simpa [assocSet] using h
    · simp only [assocSet, if_neg hk, List.map_cons, List.nodup_cons]
      refine ⟨fun hmem => ?_, ih h.2⟩
      rcases keys_assocSet_subset k v tl k₀ hmem with h₁ | h₁
      · exact hk h₁
      · exact h.1 h₁

theorem assocGet_del_self (l : List (String × β))
    (h : (l.map Prod.fst).Nodup) : assocGet k (assocDel k l) = none := by
  induction l with
  | nil => rfl
  | cons hd tl ih =>
    obtain ⟨k₀, v₀⟩ := hd
    simp only [List.map_cons, List.nodup_cons] at h
    by_cases hk : k₀ = k
    · subst hk
      simp only [assocDel, if_pos rfl]
      exact assocGet_eq_none_of_not_mem tl h.1
    · simp [assocDel, assocGet, hk, ih h.2]

theorem length_assocDel_of_get (l : List (String × β))
    (h : assocGet k l = some v) : (assocDel k l).length + 1 = l.length := by
  induction l with
  | nil => simp [assocGet] at h
  | cons hd tl ih =>
    obtain ⟨k₀, v₀⟩ := hd
    by_cases hk : k₀ = k
    · simp [assocDel, hk]
    · simp only [assocGet, if_neg hk] at h
      simp [assocDel, hk, ih h]

/-! Section: Python string helpers -/

/-- Python `str.lower` restricted to ASCII plus the accented capitals used in
the repository. -/
def pyLowerChar (c : Char) : Char :=
  if c = 'Á' then 'á' else if c = 'É' then 'é' else if c = 'Í' then 'í'
  else if c = 'Ó' then 'ó' else if c = 'Ú' then 'ú' else if c = 'Ñ' then 'ñ'
  else c.toLower

def pyLower (s : String) : String := ⟨s.data.map pyLowerChar⟩

/-- Python `str.upper` restricted to ASCII plus the accented letters used in
the repository. -/
def pyUpperChar (c : Char) : Char :=
  if c = 'á' then 'Á' else if c = 'é' then 'É' else if c = 'í' then 'Í'
  else if c = 'ó' then 'Ó' else if c = 'ú' then 'Ú' else if c = 'ñ' then 'Ñ'
  else c.toUpper

def pyUpper (s : String) : String := ⟨s.data.map pyUpperChar⟩

def isSpaceChar (c : Char) : Bool :=
  c == ' ' || c == '\t' || c == '\n' || c == '\r' || c == '\x0b' || c == '\x0c'

/-- Python `str.strip`: remove leading and trailing whitespace. -/
def pyStrip (s : String) : String :=
  ⟨((s.data.dropWhile isSpaceChar).reverse.dropWhile isSpaceChar).reverse⟩

/-- Python `needle in haystack` on strings (substring containment). -/
def strContains (haystack needle : String) : Bool :=
  (List.range (haystack.data.length + 1)).any fun i =>
    needle.data.isPrefixOf (haystack.data.drop i)

/-! Section: Rate limiter (`rate_limited` in `src/utils/google_sheets.py`)

The decorator keeps three mutable cells: `last_called`, `request_count` and
`reset_time` (initialised to `0.0`, `0` and load-time + 60).  Each wrapped
call observes the clock once at entry; sleeps are modelled by returning a
completion time later than the entry time.  The wrapped function itself is
treated as instantaneous, which is the reading under which the claim speaks
of a call "completing". -/

structure RLState where
  lastCalled : ℚ
  requestCount : ℕ
  resetTime : ℚ
deriving DecidableEq

/-- State of the decorator cells right after decoration at time `t₀`
(`last_called = [0.0]`, `request_count = [0]`, `reset_time = [time.time() + 60]`). -/
def rlInit (t₀ : ℚ) : RLState := ⟨0, 0, t₀ + 60⟩

/-- One wrapped call entered at clock time `t` with `calls_per_minute = n`:
returns the new cell state and the completion time of the call. -/
def rlStep (n : ℕ) (s : RLState) (t : ℚ) : RLState × ℚ :=
  let count₁ : ℕ := if s.resetTime < t then 0 else s.requestCount
  let reset₁ : ℚ := if s.resetTime < t then t + 60 else s.resetTime
  let sleepLimit : ℚ :=
    if n ≤ count₁ ∧ 0 < reset₁ - t then reset₁ - t + 1/2 else 0
  let count₂ : ℕ := if n ≤ count₁ ∧ 0 < reset₁ - t then 0 else count₁
  let reset₂ : ℚ :=
    if n ≤ count₁ ∧ 0 < reset₁ - t then t + sleepLimit + 60 else reset₁
  let leftToWait : ℚ := 60 / n - (t - s.lastCalled)
  let sleepInterval : ℚ := if 0 < leftToWait then leftToWait else 0
  let doneAt : ℚ := t + sleepLimit + sleepInterval
  (⟨doneAt, count₂ + 1, reset₂⟩, doneAt)

/-- A sequence of wrapped calls entered at the given clock times, returning
the list of completion times and the final cell state. -/
def rlRun (n : ℕ) (s : RLState) : List ℚ → List ℚ × RLState
  | [] => ([], s)
  | t :: ts =>
    let p := rlStep n s t
    let q := rlRun n p.1 ts
    (p.2 :: q.1, q.2)

/-- Consecutive entry times are spaced at least `d` apart, the first one at
least `d` after `prev`. -/
def spacedB (d : ℚ) : ℚ → List ℚ → Bool
  | _, [] => true
  | prev, t :: ts => decide (prev + d ≤ t) && spacedB d t ts

theorem rlStep_below_ceiling (n : ℕ) (s : RLState) (t : ℚ)
    (h₁ : ¬ s.resetTime < t) (h₂ : ¬ n ≤ s.requestCount) :
    (rlStep n s t).1.requestCount = s.requestCount + 1 ∧
      (rlStep n s t).1.resetTime = s.resetTime := by
  have hc : ¬ (n ≤ s.requestCount ∧ 0 < s.resetTime - t) := fun hh => h₂ hh.1
  unfold rlStep
  simp only [if_neg h₁, if_neg hc]
  exact ⟨trivial, trivial⟩

theorem rlStep_at_ceiling (n : ℕ) (s : RLState) (t : ℚ)
    (h₁ : ¬ s.resetTime < t) (h₂ : n ≤ s.requestCount) :
    s.resetTime ≤ (rlStep n s t).2 := by
  have hsi : (0:ℚ) ≤ (if 0 < 60 / (n:ℚ) - (t - s.lastCalled)
      then 60 / (n:ℚ) - (t - s.lastCalled) else 0) := by
    split <;> linarith
  by_cases h₃ : 0 < s.resetTime - t
  · have hc : (n ≤ s.requestCount ∧ 0 < s.resetTime - t) := ⟨h₂, h₃⟩
    unfold rlStep
    simp only [if_neg h₁, if_pos hc]
    linarith
  · have hc : ¬ (n ≤ s.requestCount ∧ 0 < s.resetTime - t) := fun hh => h₃ hh.2
    unfold rlStep
    simp only [if_neg h₁, if_neg hc]
    have ht : s.resetTime ≤ t := not_lt.mp (fun hh => h₃ (by linarith))
    linarith

theorem rlRun_counts (n : ℕ) (t₀ : ℚ) :
    ∀ (ts : List ℚ) (s : RLState), s.resetTime = t₀ + 60 →
      (∀ u ∈ ts, u ≤ t₀ + 60) → s.requestCount + ts.length ≤ n →
      (rlRun n s ts).2.requestCount = s.requestCount + ts.length ∧
        (rlRun n s ts).2.resetTime = t₀ + 60 := by
  intro ts
  induction ts with
  | nil => intro s hr _ _; simp [rlRun, hr]
  | cons t ts ih =>
    intro s hr hmem hcount
    have h₁ : ¬ s.resetTime < t := by
      rw [hr]; exact not_lt.mpr (hmem t (by simp))
    have h₂ : ¬ n ≤ s.requestCount := by
      simp only [List.length_cons] at hcount
      omega
    have hstep := rlStep_below_ceiling n s t h₁ h₂
    have ihh := ih (rlStep n s t).1 (by rw [hstep.2, hr])
      (fun u hu => hmem u (by simp [hu]))
      (by simp only [List.length_cons] at hcount; omega)
    simp only [rlRun]
    constructor
    · rw [ihh.1, hstep.1]
      simp only [List.length_cons]
      omega
    · exact ihh.2

theorem rlStep_spaced (n : ℕ) (s : RLState) (t : ℚ)
    (h₁ : ¬ s.resetTime < t) (h₂ : ¬ n ≤ s.requestCount)
    (h₃ : s.lastCalled + 60 / n ≤ t) :
    rlStep n s t = (⟨t, s.requestCount + 1, s.resetTime⟩, t) := by
  have hc : ¬ (n ≤ s.requestCount ∧ 0 < s.resetTime - t) := fun hh => h₂ hh.1
  have hl : ¬ (0 < 60 / (n:ℚ) - (t - s.lastCalled)) := by linarith
  unfold rlStep
  simp only [if_neg h₁, if_neg hc, if_neg hl]
  norm_num

theorem rlRun_spaced (n : ℕ) (t₀ : ℚ) :
    ∀ (ts : List ℚ) (s : RLState), s.resetTime = t₀ + 60 →
      (∀ u ∈ ts, u ≤ t₀ + 60) → s.requestCount + ts.length ≤ n →
      spacedB (60 / n) s.lastCalled ts = true →
      (rlRun n s ts).1 = ts := by
  intro ts
  induction ts with
  | nil => intro s _ _ _ _; rfl
  | cons t ts ih =>
    intro s hr hmem hcount hsp
    simp only [spacedB, Bool.and_eq_true, decide_eq_true_eq] at hsp
    have h₁ : ¬ s.resetTime < t := by
      rw [hr]; exact not_lt.mpr (hmem t (by simp))
    have h₂ : ¬ n ≤ s.requestCount := by
      simp only [List.length_cons] at hcount
      omega
    have hstep := rlStep_spaced n s t h₁ h₂ hsp.1
    simp only [rlRun, hstep]
    have ihh := ih ⟨t, s.requestCount + 1, s.resetTime⟩ (by simpa using hr)
      (fun u hu => hmem u (by simp [hu]))
      (by show s.requestCount + 1 + ts.length ≤ n
          simp only [List.length_cons] at hcount; omega)
      (by simpa using hsp.2)
    simpa using ihh

/-- Claim C1, counterexample: start the decorator with `calls_per_minute = 2`
at time 100 and enter two calls (exactly N) back to back at time 100, both
within the rolling window that ends at 160.  The second call completes only at
time 130: it is blocked for 30 seconds by the minimum-interval sleep
(`min_interval = 60 / calls_per_minute`), refuting the part of the claim that
says issuing exactly N calls within the window never blocks any of them. -/
theorem rate_limited_blocks_back_to_back :
    (∀ u ∈ [(100:ℚ), 100], u ≤ 100 + 60) ∧
    (rlRun 2 (rlInit 100) [100, 100]).1 = [100, 130] ∧
    (rlRun 2 (rlInit 100) [100, 100]).1 ≠ [100, 100] := by
  refine ⟨?_, ?_, ?_⟩ <;> norm_num [rlRun, rlStep, rlInit]

/-- Claim C1 (amended): for a limiter configured with `calls_per_minute = n`,
after n wrapped calls entered inside the initial rolling window the next call
entered inside that window never completes before the window reset time
`t₀ + 60` (the caller is put to sleep rather than failed).  Issuing exactly n
calls never blocks on the per-minute ceiling, but each call is additionally
delayed to keep entries at least `60 / n` seconds apart; n calls spaced at
least `60 / n` apart (the first at least `60 / n` after the clock origin)
each complete exactly at their entry time, i.e. never block. -/
theorem rate_limited_window_behavior (n : ℕ) (_hn : 0 < n) (t₀ : ℚ)
    (ts : List ℚ) (textra : ℚ) (hlen : ts.length = n)
    (hts : ∀ u ∈ ts, u ≤ t₀ + 60) (hextra : textra ≤ t₀ + 60) :
    t₀ + 60 ≤ (rlStep n (rlRun n (rlInit t₀) ts).2 textra).2 ∧
      (spacedB (60 / n) 0 ts = true → (rlRun n (rlInit t₀) ts).1 = ts) := by
  constructor
  · have hcounts := rlRun_counts n t₀ ts (rlInit t₀) rfl hts
      (by simp [rlInit, hlen])
    have h₁ : ¬ (rlRun n (rlInit t₀) ts).2.resetTime < textra := by
      rw [hcounts.2]; exact not_lt.mpr hextra
    have h₂ : n ≤ (rlRun n (rlInit t₀) ts).2.requestCount := by
      rw [hcounts.1]; simp [rlInit, hlen]
    have := rlStep_at_ceiling n (rlRun n (rlInit t₀) ts).2 textra h₁ h₂
    rw [hcounts.2] at this
    exact this
  · intro hsp
    exact rlRun_spaced n t₀ ts (rlInit t₀) rfl hts (by simp [rlInit, hlen]) hsp

/-- Witness for `rate_limited_window_behavior` at `n = 2`, `t₀ = 100`,
entry times 100 and 130 and an extra entry at 131. -/
theorem rate_limited_window_behavior_witness :
    (100:ℚ) + 60 ≤ (rlStep 2 (rlRun 2 (rlInit 100) [100, 130]).2 131).2 ∧
      (rlRun 2 (rlInit 100) [100, 130]).1 = [100, 130] := by
  have h := rate_limited_window_behavior 2 (by norm_num) 100 [100, 130] 131
    (by norm_num) (by intro u hu; fin_cases hu <;> norm_num)
    (by norm_num)
  exact ⟨h.1, h.2 (by norm_num [spacedB])⟩

/-! Section: Cache manager (`CacheManager` in `src/utils/cache_manager.py`)

`st.session_state` is modelled by the association list `store`, restricted to
the `cache_`-prefixed slice that the manager reads and writes (every key the
manager touches carries the `cache_` prefix, so `stats()["current_size"]`,
which counts the `cache_`-prefixed session keys, is the length of `store`). -/

structure CacheEntry (α : Type) where
  value : α
  created : ℚ
  expiration : ℚ
  ttl : ℚ
deriving DecidableEq

structure CMState (α : Type) where
  defaultTtl : ℚ
  store : List (String × CacheEntry α)
  hits : ℕ
  misses : ℕ
  invalidations : ℕ
  totalRequests : ℕ
deriving DecidableEq

/-- `CacheManager.get(key)` at clock time `now` (the unused `ttl` parameter of
the Python method is dropped): returns the value-or-miss together with the
updated manager state. -/
def cmGet (s : CMState α) (key : String) (now : ℚ) : Option α × CMState α :=
  let s₁ := { s with totalRequests := s.totalRequests + 1 }
  let ck := "cache_" ++ key
  match assocGet ck s₁.store with
  | some e =>
    if e.expiration < now then
      (none, { s₁ with store := assocDel ck s₁.store, misses := s₁.misses + 1 })
    else
      (some e.value, { s₁ with hits := s₁.hits + 1 })
  | none => (none, { s₁ with misses := s₁.misses + 1 })

/-- `CacheManager.set(key, value, ttl)` at clock time `now`; the Python
`ttl = ttl or self.default_ttl` makes both `None` and `0` fall back to the
default TTL. -/
def cmSet (s : CMState α) (key : String) (v : α) (givenTtl : Option ℚ)
    (now : ℚ) : CMState α :=
  let ttl : ℚ := match givenTtl with
    | none => s.defaultTtl
    | some q => if q = 0 then s.defaultTtl else q
  { s with store := assocSet ("cache_" ++ key) ⟨v, now, now + ttl, ttl⟩ s.store }

/-- `stats()["current_size"]`: the number of `cache_`-prefixed session keys. -/
def currentSize (s : CMState α) : ℕ := s.store.length

/-- Claim C2: after `set(k, v, ttl)` at time `t`, a `get(k)` strictly before
`t + ttl` returns `v`; a `get(k)` strictly after `t + ttl` returns a miss and
that same lookup removes the entry, so `current_size` drops by one; and no
`get` ever returns a value whose entry is past its expiration (the
no-duplicate-keys hypothesis reflects that the session store is a dict). -/
theorem cache_roundtrip_and_expiry :
    (∀ (α : Type) (s : CMState α) (k : String) (v : α) (ttl t tg : ℚ),
       0 < ttl → tg < t + ttl →
       (cmGet (cmSet s k v (some ttl) t) k tg).1 = some v) ∧
    (∀ (α : Type) (s : CMState α) (k : String) (v : α) (ttl t tg : ℚ),
       (s.store.map Prod.fst).Nodup → 0 < ttl → t + ttl < tg →
       (cmGet (cmSet s k v (some ttl) t) k tg).1 = none ∧
       assocGet ("cache_" ++ k) (cmGet (cmSet s k v (some ttl) t) k tg).2.store
         = none ∧
       currentSize (cmGet (cmSet s k v (some ttl) t) k tg).2 + 1
         = currentSize (cmSet s k v (some ttl) t)) ∧
    (∀ (α : Type) (s : CMState α) (k : String) (now : ℚ) (v : α),
       (cmGet s k now).1 = some v →
       ∃ e : CacheEntry α, assocGet ("cache_" ++ k) s.store = some e ∧
         v = e.value ∧ ¬ e.expiration < now) := by
  refine ⟨?_, ?_, ?_⟩
  · intro α s k v ttl t tg httl horder
    have hne : ¬ ttl = 0 := by linarith
    have hget : assocGet ("cache_" ++ k) (cmSet s k v (some ttl) t).store
        = some ⟨v, t, t + ttl, ttl⟩ := by
      simp only [cmSet, if_neg hne]
      exact assocGet_set_self _ _ _
    have hexp : ¬ ((t + ttl) < tg) := by linarith
    simp only [cmGet, hget, if_neg hexp]
  · intro α s k v ttl t tg hnodup httl horder
    have hne : ¬ ttl = 0 := by linarith
    have hget : assocGet ("cache_" ++ k) (cmSet s k v (some ttl) t).store
        = some ⟨v, t, t + ttl, ttl⟩ := by
      simp only [cmSet, if_neg hne]
      exact assocGet_set_self _ _ _
    have hnodup₂ : ((cmSet s k v (some ttl) t).store.map Prod.fst).Nodup := by
      simp only [cmSet, if_neg hne]
      exact nodup_keys_assocSet _ _ _ hnodup
    have hexp : ((t + ttl) < tg) := horder
    refine ⟨?_, ?_, ?_⟩
    · simp only [cmGet, hget, if_pos hexp]
    · simp only [cmGet, hget, if_pos hexp]
      exact assocGet_del_self _ hnodup₂
    · simp only [cmGet, hget, if_pos hexp, currentSize]
      exact length_assocDel_of_get _ hget
  · intro α s k now v hret
    simp only [cmGet] at hret
    rcases hmatch : assocGet ("cache_" ++ k) s.store with _ | e
    · simp only [hmatch] at hret
      simp at hret
    · simp only [hmatch] at hret
      by_cases hexp : e.expiration < now
      · rw [if_pos hexp] at hret
        simp at hret
      · rw [if_neg hexp] at hret
        simp only [Option.some.injEq] at hret
        exact ⟨e, by simp [hmatch], hret.symm, hexp⟩

/-- A concrete empty cache manager state over natural-number values. -/
def cmDemo : CMState ℕ := ⟨1800, [], 0, 0, 0, 0⟩

/-- Witness for `cache_roundtrip_and_expiry`: key `x`, value 5, TTL 10 written
at time 0; a lookup at time 5 hits, a lookup at time 11 misses and evicts. -/
theorem cache_roundtrip_and_expiry_witness :
    (cmGet (cmSet cmDemo "x" 5 (some 10) 0) "x" 5).1 = some 5 ∧
    (cmGet (cmSet cmDemo "x" 5 (some 10) 0) "x" 11).1 = none ∧
    (∃ e : CacheEntry ℕ,
      assocGet ("cache_" ++ "x") (cmSet cmDemo "x" 5 (some 10) 0).store = some e ∧
      (5:ℕ) = e.value ∧ ¬ e.expiration < 5) := by
  have h := cache_roundtrip_and_expiry
  have h₁ := h.1 ℕ cmDemo "x" 5 10 0 5 (by norm_num) (by norm_num)
  refine ⟨h₁, ?_, ?_⟩
  · exact (h.2.1 ℕ cmDemo "x" 5 10 0 11 (by simp [cmDemo]) (by norm_num)
      (by norm_num)).1
  · exact h.2.2 ℕ (cmSet cmDemo "x" 5 (some 10) 0) "x" 5 5 h₁

/-! Section: Course grid parser (`_load_courses_raw` in `src/utils/google_sheets.py`)

One worksheet is a raw grid of cells (list of rows of strings).  The loop body
of `_load_courses_raw` is embedded per tab; the surrounding loop over all
worksheets builds the course dict, skipping the `MAILS`/`CONFIG` tabs, grids
of fewer than five rows, and grids yielding an empty student list. -/

abbrev Grid := List (List String)

structure Course where
  profesor : String
  sede : String
  asignatura : String
  estudiantes : List String
  fechas : List String
  lastUpdated : ℚ
deriving DecidableEq

def cellAt (g : Grid) (r c : ℕ) : String := (g.getD r []).getD c ""

/-- Students: column 0 of rows 4 to `min(24, len) - 1`, stripped, non-empty,
excluding the header words. -/
def estudiantesOf (g : Grid) : List String :=
  (List.range' 4 (min 24 g.length - 4)).filterMap fun i =>
    let row := g.getD i []
    if row ≠ [] ∧ pyStrip (row.getD 0 "") ≠ "" then
      if pyLower (pyStrip (row.getD 0 "")) ∈ ["nombre", "estudiante", "alumno"]
      then none else some (pyStrip (row.getD 0 ""))
    else none

/-- Class dates: column 0 of rows 1 to `min(36, len) - 1`, stripped,
non-empty, excluding the header words. -/
def fechasOf (g : Grid) : List String :=
  (List.range' 1 (min 36 g.length - 1)).filterMap fun i =>
    let row := g.getD i []
    if row ≠ [] ∧ pyStrip (row.getD 0 "") ≠ "" then
      if pyLower (pyStrip (row.getD 0 "")) ∈ ["fecha", "clase", "día"]
      then none else some (pyStrip (row.getD 0 ""))
    else none

/-- The per-worksheet body of `_load_courses_raw`, entered at clock time `t`
(`datetime.now()` is recorded in the `last_updated` field): `none` when the
tab is skipped, `some course` when it is stored in the result dict. -/
def parseSheetTab (t : ℚ) (name : String) (g : Grid) : Option Course :=
  if pyUpper name = "MAILS" ∨ pyUpper name = "CONFIG" then none
  else if g.length < 5 then none
  else
    let profesor :=
      if 1 < (g.getD 0 []).length then cellAt g 0 1 else "No asignado"
    let sede :=
      if 1 < g.length ∧ 1 < (g.getD 1 []).length then cellAt g 1 1
      else "No especificada"
    let asignatura :=
      if 2 < g.length ∧ 1 < (g.getD 2 []).length then cellAt g 2 1
      else "Sin asignatura"
    if estudiantesOf g = [] then none
    else some
      { profesor := profesor
        sede := if sede = "" then "NO ESPECIFICADA" else pyUpper sede
        asignatura := asignatura
        estudiantes := estudiantesOf g
        fechas := if fechasOf g = [] then ["Sin fechas programadas"]
                  else fechasOf g
        lastUpdated := t }

/-- The worksheet loop of `_load_courses_raw`: `courses[sheet_name] = ...`
for every successfully parsed tab, in sheet order. -/
def loadCoursesGo (t : ℚ) (acc : List (String × Course)) :
    List (String × Grid) → List (String × Course)
  | [] => acc
  | (n, g) :: rest =>
    match parseSheetTab t n g with
    | none => loadCoursesGo t acc rest
    | some c => loadCoursesGo t (assocSet n c acc) rest

def loadCoursesRaw (t : ℚ) (tabs : List (String × Grid)) :
    List (String × Course) :=
  loadCoursesGo t [] tabs

/-- Forget the wall-clock field of a parsed course. -/
def eraseLastUpdated (c : Course) : Course := { c with lastUpdated := 0 }

theorem loadCoursesGo_stable (t : ℚ) (n : String) :
    ∀ (tabs : List (String × Grid)) (acc : List (String × Course)),
      n ∉ tabs.map Prod.fst →
      assocGet n (loadCoursesGo t acc tabs) = assocGet n acc := by
  intro tabs
  induction tabs with
  | nil => intro acc _; rfl
  | cons hd rest ih =>
    obtain ⟨m, g⟩ := hd
    intro acc hnot
    simp only [List.map_cons, List.mem_cons] at hnot
    push_neg at hnot
    rcases hp : parseSheetTab t m g with _ | c
    · simp only [loadCoursesGo, hp]
      exact ih acc hnot.2
    · simp only [loadCoursesGo, hp]
      rw [ih (assocSet m c acc) hnot.2]
      exact assocGet_set_ne (fun hh => hnot.1 hh.symm) c acc

theorem loadCoursesGo_found (t : ℚ) (n : String) (g : Grid) :
    ∀ (tabs : List (String × Grid)) (acc : List (String × Course)),
      (tabs.map Prod.fst).Nodup → (n, g) ∈ tabs → assocGet n acc = none →
      assocGet n (loadCoursesGo t acc tabs) = parseSheetTab t n g := by
  intro tabs
  induction tabs with
  | nil => intro acc _ hmem; simp at hmem
  | cons hd rest ih =>
    obtain ⟨m, h⟩ := hd
    intro acc hnodup hmem hacc
    simp only [List.map_cons, List.nodup_cons] at hnodup
    rcases List.mem_cons.mp hmem with heq | htail
    · injection heq with h₁ h₂
      subst h₁
      subst h₂
      rcases hp : parseSheetTab t n g with _ | c
      · simp only [loadCoursesGo, hp]
        rw [loadCoursesGo_stable t n rest acc hnodup.1, hacc]
      · simp only [loadCoursesGo, hp]
        rw [loadCoursesGo_stable t n rest (assocSet n c acc) hnodup.1]
        exact assocGet_set_self n c acc
    · have hne : m ≠ n := by
        intro hh
        exact hnodup.1 (hh ▸ (List.mem_map_of_mem Prod.fst htail))
      rcases hp : parseSheetTab t m h with _ | c
      · simp only [loadCoursesGo, hp]
        exact ih acc hnodup.2 htail hacc
      · simp only [loadCoursesGo, hp]
        refine ih (assocSet m c acc) hnodup.2 htail ?_
        rw [assocGet_set_ne hne c acc, hacc]

/-- A five-row worksheet grid whose only populated cell is the student name
`Juan` in row 4 (parsed as both a student and, incidentally, a date). -/
def gridDemo : Grid := [[""], [""], [""], [""], ["Juan"]]

/-- Claim C3, counterexample: the same grid parsed at clock times 0 and 1
produces `Course` values that are not identical, because the parser stores
`datetime.now()` in the `last_updated` field.  The parse does produce a course
for this grid, so the inequality is not vacuous. -/
theorem parse_differs_across_runs :
    (parseSheetTab 0 "4A" gridDemo).isSome = true ∧
      parseSheetTab 0 "4A" gridDemo ≠ parseSheetTab 1 "4A" gridDemo := by
  decide

/-- Claim C3 (amended): the parse is a pure function of the grid on every
field except `last_updated`, which records the wall-clock time of the run;
two runs at arbitrary clock times agree after that field is forgotten. -/
theorem parse_pure_up_to_timestamp (t₁ t₂ : ℚ) (name : String) (g : Grid) :
    (parseSheetTab t₁ name g).map eraseLastUpdated
      = (parseSheetTab t₂ name g).map eraseLastUpdated := by
  simp only [parseSheetTab]
  split
  · rfl
  · split
    · rfl
    · split
      · rfl
      · simp [eraseLastUpdated]

/-- A five-row grid with one student row (`Clase`) and no date rows: the
student marker word `Clase` is filtered out of the date section, so the
extracted date list is empty. -/
def gridNoDates : Grid := [[""], [""], [""], [""], ["Clase"]]

/-- Claim C6, counterexample: a tab whose parse yields zero class dates is
nevertheless added to the course map, with the placeholder date list
`["Sin fechas programadas"]`; only a tab with zero students is skipped. -/
theorem zero_dates_tab_still_added :
    fechasOf gridNoDates = [] ∧
      assocGet "4A" (loadCoursesRaw 0 [("4A", gridNoDates)])
        = some { profesor := "No asignado", sede := "NO ESPECIFICADA",
                 asignatura := "Sin asignatura", estudiantes := ["Clase"],
                 fechas := ["Sin fechas programadas"], lastUpdated := 0 } := by
  decide

/-- Claim C6 (amended): over a spreadsheet with distinct tab titles, each
entry of the returned course map is exactly the per-tab parse result, so one
tab never influences another (valid tabs always appear); a tab with zero
extracted students is never added, while a tab with zero extracted dates but
a non-empty roster is added with a placeholder date list. -/
theorem course_map_per_tab (t : ℚ) (tabs : List (String × Grid))
    (hnodup : (tabs.map Prod.fst).Nodup) :
    (∀ (n : String) (g : Grid), (n, g) ∈ tabs →
       assocGet n (loadCoursesRaw t tabs) = parseSheetTab t n g) ∧
    (∀ (n : String) (g : Grid), estudiantesOf g = [] →
       parseSheetTab t n g = none) := by
  constructor
  · intro n g hmem
    exact loadCoursesGo_found t n g tabs [] hnodup hmem rfl
  · intro n g hes
    simp only [parseSheetTab]
    split
    · rfl
    · split
      · rfl
      · simp [hes]

/-- Witness for `course_map_per_tab`: a singleton spreadsheet with the demo
grid, and an all-empty five-row grid that yields no students. -/
theorem course_map_per_tab_witness :
    assocGet "4A" (loadCoursesRaw 0 [("4A", gridDemo)])
        = parseSheetTab 0 "4A" gridDemo ∧
      parseSheetTab 0 "Vacia" [[], [], [], [], []] = none := by
  have h := course_map_per_tab 0 [("4A", gridDemo)] (by decide)
  exact ⟨h.1 "4A" gridDemo (by decide), h.2 "Vacia" [[], [], [], [], []] (by decide)⟩

/-! Section: Retry wrapper (`retry_with_backoff` in `src/utils/google_sheets.py`)

A Python exception is modelled by its message string; the `isinstance`
membership test against the `retry_exceptions` tuple is modelled by a boolean
predicate on errors.  With the repository default
`retry_exceptions=(Exception,)` that predicate is constantly true, because
every raised exception is an instance of `Exception`.  The wrapped operation
is modelled as a function from the attempt index to a result, and the
backoff sleeps performed before each retry are collected in a list. -/

structure PyErr where
  msg : String
deriving DecidableEq

instance decEqExcept {ε σ : Type} [DecidableEq ε] [DecidableEq σ] :
    DecidableEq (Except ε σ) := fun a b =>
  match a, b with
  | .ok x, .ok y =>
    if h : x = y then isTrue (h ▸ rfl)
    else isFalse (fun hh => h (Except.ok.inj hh))
  | .error x, .error y =>
    if h : x = y then isTrue (h ▸ rfl)
    else isFalse (fun hh => h (Except.error.inj hh))
  | .ok _, .error _ => isFalse (fun hh => Except.noConfusion hh)
  | .error _, .ok _ => isFalse (fun hh => Except.noConfusion hh)

/-- The retry decision of the `except` block: a 429 / RESOURCE_EXHAUSTED
message, or membership in the configured `retry_exceptions`. -/
def shouldRetryErr (retryExc : PyErr → Bool) (e : PyErr) : Bool :=
  strContains e.msg "429" || strContains e.msg "RESOURCE_EXHAUSTED" || retryExc e

/-- The default `retry_exceptions=(Exception,)`: every exception matches. -/
def defaultRetryExc : PyErr → Bool := fun _ => true

structure RetryOutcome (α : Type) where
  result : Except PyErr α
  attemptsUsed : ℕ
  sleeps : List ℚ
deriving DecidableEq

/-- The `for attempt in range(max_retries + 1)` loop; `fuel` is the number of
loop iterations still allowed, so in the recursive case `fuel = 0` is exactly
`attempt == max_retries`.  The fuel-exhausted base case mirrors the trailing
`raise last_exception` line that the loop can never actually reach. -/
def retryLoop (retryExc : PyErr → Bool) (factor : ℚ)
    (op : ℕ → Except PyErr α) :
    ℕ → ℕ → ℚ → List ℚ → RetryOutcome α
  | 0, attempt, _, sleeps => ⟨.error ⟨"Error desconocido en retry"⟩, attempt, sleeps⟩
  | fuel + 1, attempt, delay, sleeps =>
    let sleeps₂ := if attempt = 0 then sleeps else sleeps ++ [delay]
    let delay₂ := if attempt = 0 then delay else delay * factor
    match op attempt with
    | .ok v => ⟨.ok v, attempt + 1, sleeps₂⟩
    | .error e =>
      if shouldRetryErr retryExc e = false ∨ fuel = 0 then
        ⟨.error e, attempt + 1, sleeps₂⟩
      else retryLoop retryExc factor op fuel (attempt + 1) delay₂ sleeps₂

def retryRun (retryExc : PyErr → Bool) (maxRetries : ℕ)
    (initialDelay factor : ℚ) (op : ℕ → Except PyErr α) : RetryOutcome α :=
  retryLoop retryExc factor op (maxRetries + 1) 0 initialDelay []

/-- An authentication failure as raised by the remote client. -/
def uauthErr : PyErr := ⟨"gspread.exceptions.APIError: Unauthorized"⟩

/-- An operation that fails with an authentication error on every attempt. -/
def uauthOp : ℕ → Except PyErr Unit := fun _ => .error uauthErr

/-- Claim C4, counterexample: with the configuration the repository actually
uses (`max_retries=2`, `initial_delay=2`, default `backoff_factor=2.5`,
default `retry_exceptions=(Exception,)`), an `Unauthorized` failure is NOT
propagated on first occurrence: the wrapper performs three attempts and two
backoff sleeps before re-raising, because every exception is an instance of
`Exception` and is therefore classified retryable. -/
theorem retry_retries_unauthorized :
    (retryRun defaultRetryExc 2 2 (5/2) uauthOp).attemptsUsed = 3 ∧
      (retryRun defaultRetryExc 2 2 (5/2) uauthOp).sleeps.length = 2 ∧
      (retryRun defaultRetryExc 2 2 (5/2) uauthOp).result = .error uauthErr := by
  decide

theorem retryLoop_all_fail (retryExc : PyErr → Bool) (f : ℚ)
    (op : ℕ → Except PyErr α) (e : PyErr) (hall : ∀ i, op i = .error e)
    (hret : shouldRetryErr retryExc e = true) :
    ∀ (fuel attempt : ℕ) (delay : ℚ) (sleeps : List ℚ),
      (retryLoop retryExc f op (fuel + 1) attempt delay sleeps).result
          = .error e ∧
        (retryLoop retryExc f op (fuel + 1) attempt delay sleeps).attemptsUsed
          = attempt + fuel + 1 := by
  intro fuel
  induction fuel with
  | zero =>
    intro attempt delay sleeps
    simp [retryLoop, hall attempt, hret]
  | succ fl ih =>
    intro attempt delay sleeps
    have hcond : ¬ (shouldRetryErr retryExc e = false ∨ fl + 1 = 0) := by
      simp [hret]
    have hstep : retryLoop retryExc f op (fl + 1 + 1) attempt delay sleeps
        = retryLoop retryExc f op (fl + 1) (attempt + 1)
            (if attempt = 0 then delay else delay * f)
            (if attempt = 0 then sleeps else sleeps ++ [delay]) := by
      conv_lhs => rw [retryLoop]
      simp only [hall attempt, if_neg hcond]
    rw [hstep]
    have h := ih (attempt + 1) (if attempt = 0 then delay else delay * f)
      (if attempt = 0 then sleeps else sleeps ++ [delay])
    exact ⟨h.1, by rw [h.2]; omega⟩

/-- Claim C4 (amended): the wrapper propagates a failure on the very first
attempt, with no retry and no backoff sleep, exactly when the failure matches
neither the 429/RESOURCE_EXHAUSTED message test nor the configured
`retry_exceptions` predicate; under the repository default
`retry_exceptions=(Exception,)` every failure is classified retryable, so a
persistently failing operation is attempted `max_retries + 1` times before
the last error propagates. -/
theorem retry_policy_behavior :
    (∀ (α : Type) (retryExc : PyErr → Bool) (maxRetries : ℕ) (d f : ℚ)
        (e : PyErr) (op : ℕ → Except PyErr α),
        op 0 = .error e → shouldRetryErr retryExc e = false →
        retryRun retryExc maxRetries d f op = ⟨.error e, 1, []⟩) ∧
    (∀ (α : Type) (maxRetries : ℕ) (d f : ℚ) (e : PyErr)
        (op : ℕ → Except PyErr α),
        (∀ i, op i = .error e) →
        (retryRun defaultRetryExc maxRetries d f op).result = .error e ∧
          (retryRun defaultRetryExc maxRetries d f op).attemptsUsed
            = maxRetries + 1) := by
  constructor
  · intro α retryExc maxRetries d f e op hop hcls
    simp [retryRun, retryLoop, hop, hcls]
  · intro α maxRetries d f e op hall
    have hret : shouldRetryErr defaultRetryExc e = true := by
      simp [shouldRetryErr, defaultRetryExc]
    have h := retryLoop_all_fail defaultRetryExc f op e hall hret maxRetries 0 d []
    exact ⟨h.1, by rw [retryRun, h.2]; omega⟩

/-- An operation that fails with a not-found error on every attempt. -/
def notFoundOp : ℕ → Except PyErr Unit :=
  fun _ => .error ⟨"SpreadsheetNotFound"⟩

/-- Witness for `retry_policy_behavior`: a strict `retry_exceptions`
predicate propagates a not-found error immediately with no sleep, while the
default configuration exhausts all three attempts on the same error. -/
theorem retry_policy_behavior_witness :
    retryRun (fun _ => false) 2 2 (5/2) notFoundOp
        = ⟨.error ⟨"SpreadsheetNotFound"⟩, 1, []⟩ ∧
      (retryRun defaultRetryExc 2 2 (5/2) notFoundOp).result
          = .error ⟨"SpreadsheetNotFound"⟩ ∧
      (retryRun defaultRetryExc 2 2 (5/2) notFoundOp).attemptsUsed = 3 := by
  have h := retry_policy_behavior
  have h₁ := h.1 Unit (fun _ => false) 2 2 (5/2) ⟨"SpreadsheetNotFound"⟩
    notFoundOp (by decide) (by decide)
  have h₂ := h.2 Unit 2 2 (5/2) ⟨"SpreadsheetNotFound"⟩ notFoundOp
    (fun _ => rfl)
  exact ⟨h₁, h₂.1, h₂.2⟩

/-! Section: Attendance statistics
(`_calcular_datos_asistencia` in `src/pages/secretaria_dashboard.py` and
`ApoderadosEmailSender._calculate_student_stats` in
`src/utils/send_apoderados.py`)

The per-course ledger `asistencias` is a dict from student name to a dict
from date label to boolean presence; counts are Python ints, so subtraction
lives in ℤ. -/

abbrev AttLedger := List (String × List (String × Bool))

/-- `sum(1 for estado in asistencia_est.values() if estado)`. -/
def presentesCount (inner : List (String × Bool)) : ℕ :=
  (inner.filter fun p => p.2).length

/-- The per-student row lookup `asistencias.get(estudiante, {})`. -/
def studentInner (asistencias : AttLedger) (est : String) :
    List (String × Bool) :=
  (assocGet est asistencias).getD []

/-- Dashboard path: `ausentes = total_clases - presentes if total_clases > 0
else 0`. -/
def dashAusentes (totalClases presentes : ℕ) : ℤ :=
  if 0 < totalClases then (totalClases : ℤ) - presentes else 0

/-- Sender path: `ausentes = total_fechas - presentes` (no guard). -/
def senderAusentes (totalFechas presentes : ℕ) : ℤ :=
  (totalFechas : ℤ) - presentes

/-- Both paths: `porcentaje = presentes / total * 100 if total > 0 else 0`. -/
def porcentajeOf (total presentes : ℕ) : ℚ :=
  if 0 < total then (presentes : ℚ) / total * 100 else 0

/-- Dashboard classification (`_calcular_datos_asistencia`). -/
def estadoDashboard (p : ℚ) : String :=
  if 85 ≤ p then "🏆 Excelente"
  else if 70 ≤ p then "✅ Adecuado"
  else if 50 ≤ p then "⚠️ Bajo"
  else "❌ Crítico"

/-- Email-sender classification (`_calculate_student_stats`). -/
def nivelSender (p : ℚ) : String :=
  if p < 70 then "CRITICO" else if p < 85 then "REGULAR" else "EXCELENTE"

/-- Claim C5: for a student of a course with `T = len(fechas)` class dates,
both attendance paths satisfy `presentes + ausentes = T`, and the present
count never exceeds `T`, under the stated precondition that the inner date
keys of the ledger are a subset of the class dates (with distinct keys, as
in any Python dict); a student missing from the ledger gets the empty inner
dict and is counted all-absent. -/
theorem present_plus_absent_eq_total (fechas : List String)
    (asistencias : AttLedger) (est : String)
    (hnodup : ((studentInner asistencias est).map Prod.fst).Nodup)
    (hsub : ∀ d ∈ (studentInner asistencias est).map Prod.fst, d ∈ fechas) :
    (presentesCount (studentInner asistencias est) : ℤ)
        + dashAusentes fechas.length (presentesCount (studentInner asistencias est))
        = fechas.length ∧
      (presentesCount (studentInner asistencias est) : ℤ)
        + senderAusentes fechas.length (presentesCount (studentInner asistencias est))
        = fechas.length ∧
      presentesCount (studentInner asistencias est) ≤ fechas.length := by
  set inner := studentInner asistencias est with hinner
  have hple : presentesCount inner ≤ fechas.length := by
    have h₁ : presentesCount inner ≤ inner.length := List.length_filter_le _ _
    have h₂ : inner.length = (inner.map Prod.fst).length :=
      (List.length_map _ _).symm
    have h₃ : (inner.map Prod.fst).toFinset.card = (inner.map Prod.fst).length :=
      List.toFinset_card_of_nodup hnodup
    have h₄ : (inner.map Prod.fst).toFinset ⊆ fechas.toFinset := by
      intro x hx
      rw [List.mem_toFinset] at hx ⊢
      exact hsub x hx
    have h₅ : fechas.toFinset.card ≤ fechas.length := fechas.toFinset_card_le
    have h₆ := Finset.card_le_card h₄
    omega
  refine ⟨?_, ?_, hple⟩
  · rcases Nat.eq_zero_or_pos fechas.length with hT | hT
    · have hp : presentesCount inner = 0 := by omega
      simp [dashAusentes, hT, hp]
    · simp only [dashAusentes, if_pos hT]
      ring
  · simp only [senderAusentes]
    ring

/-- Witness for `present_plus_absent_eq_total`: three class dates, a ledger
holding one present and one absent mark for the student, so one present, two
absent. -/
theorem present_plus_absent_eq_total_witness :
    (presentesCount (studentInner [("ana", [("a", true), ("b", false)])] "ana") : ℤ)
        + dashAusentes 3 (presentesCount (studentInner [("ana", [("a", true), ("b", false)])] "ana"))
        = 3 ∧
      presentesCount (studentInner [("ana", [("a", true), ("b", false)])] "ana") ≤ 3 := by
  have h := present_plus_absent_eq_total ["a", "b", "c"]
    [("ana", [("a", true), ("b", false)])] "ana" (by decide) (by decide)
  exact ⟨h.1, h.2.2⟩

/-- Claim C7, counterexample: at an attendance percentage of 60 the
email-sender path classifies the student as `CRITICO` although 60 is not
below 50, while the dashboard path classifies the same percentage as low -
the two code paths do not share the claimed four-level scheme. -/
theorem classification_divergence_at_60 :
    nivelSender 60 = "CRITICO" ∧ ¬ ((60:ℚ) < 50) ∧
      estadoDashboard 60 = "⚠️ Bajo" := by
  refine ⟨?_, by norm_num, ?_⟩ <;> norm_num [nivelSender, estadoDashboard]

/-- Claim C7 (amended): the dashboard path uses the four-level scheme
(critical below 50, low 50 to 69, adequate 70 to 84, excellent from 85), but
the email-sender path uses a three-level scheme with different thresholds:
CRITICO below 70, REGULAR 70 to 84, EXCELENTE from 85. -/
theorem attendance_classification_schemes (p : ℚ) :
    ((p < 50 → estadoDashboard p = "❌ Crítico") ∧
      (50 ≤ p → p < 70 → estadoDashboard p = "⚠️ Bajo") ∧
      (70 ≤ p → p < 85 → estadoDashboard p = "✅ Adecuado") ∧
      (85 ≤ p → estadoDashboard p = "🏆 Excelente")) ∧
    ((p < 70 → nivelSender p = "CRITICO") ∧
      (70 ≤ p → p < 85 → nivelSender p = "REGULAR") ∧
      (85 ≤ p → nivelSender p = "EXCELENTE")) := by
  refine ⟨⟨?_, ?_, ?_, ?_⟩, ?_, ?_, ?_⟩
  · intro h
    rw [estadoDashboard, if_neg (by linarith), if_neg (by linarith),
      if_neg (by linarith)]
  · intro h₁ h₂
    rw [estadoDashboard, if_neg (by linarith), if_neg (by linarith),
      if_pos (by linarith)]
  · intro h₁ h₂
    rw [estadoDashboard, if_neg (by linarith), if_pos (by linarith)]
  · intro h
    rw [estadoDashboard, if_pos (by linarith)]
  · intro h
    rw [nivelSender, if_pos (by linarith)]
  · intro h₁ h₂
    rw [nivelSender, if_neg (by linarith), if_pos (by linarith)]
  · intro h
    rw [nivelSender, if_neg (by linarith), if_neg (by linarith)]

/-- Witness for `attendance_classification_schemes` at percentages 60 and
90. -/
theorem attendance_classification_schemes_witness :
    estadoDashboard 60 = "⚠️ Bajo" ∧ nivelSender 60 = "CRITICO" ∧
      estadoDashboard 90 = "🏆 Excelente" ∧ nivelSender 90 = "EXCELENTE" := by
  have h₆ := attendance_classification_schemes 60
  have h₉ := attendance_classification_schemes 90
  exact ⟨h₆.1.2.1 (by norm_num) (by norm_num), h₆.2.1 (by norm_num),
    h₉.1.2.2.2 (by norm_num), h₉.2.2.2 (by norm_num)⟩

/-! Section: Raw attendance cell interpretation
(`_load_attendance_raw` in `src/utils/google_sheets.py` and the manual
parse in `src/pages/secretaria_dashboard.py`)

A raw cell value as returned by `get_all_records` is a bool, an int, a
float, a string, or something else (for example `None`); Python checks
`isinstance(estado, bool)` first, so booleans are not swallowed by the
numeric case. -/

inductive CellVal where
  | b (v : Bool)
  | n (v : ℤ)
  | f (v : ℚ)
  | s (v : String)
  | null
deriving DecidableEq

/-- The ledger-loader conversion of the `Asistencia` record field. -/
def estadoToBool (v : CellVal) : Bool :=
  match v with
  | .b x => x
  | .n x => decide (x ≠ 0)
  | .f x => decide (x ≠ 0)
  | .s x =>
      decide (pyStrip (pyLower x) ∈ ["true", "1", "si", "sí", "presente", "p"])
  | .null => false

/-- The manual dashboard parse: `valor == "1"` after `str(...).strip()`. -/
def manualPresente (cell : String) : Bool := decide (pyStrip cell = "1")

/-- Claim C8, counterexample: the string `1.0`, which the claim lists as a
present token, is read as absent by both parsing paths; conversely the
manual dashboard path reads `Presente` as absent, and the ledger loader
accepts tokens outside the claimed set (`p`, any non-zero number). -/
theorem present_tokens_mismatch :
    estadoToBool (.s "1.0") = false ∧ manualPresente "1.0" = false ∧
      manualPresente "Presente" = false ∧ estadoToBool (.s "p") = true ∧
      estadoToBool (.n 2) = true := by
  decide

/-- Claim C8 (amended): the ledger loader reads a cell as present exactly for
boolean true, a non-zero int or float, or a string whose lowercased stripped
form is one of `true`, `1`, `si`, `sí`, `presente`, `p`; the manual dashboard
path reads a cell as present exactly when the stripped string equals `1`;
every other value (including empty and unrecognized cells) yields absent on
both paths, never an error. -/
theorem present_token_characterization :
    (∀ v : CellVal, estadoToBool v = true ↔
      (v = .b true ∨ (∃ x : ℤ, v = .n x ∧ x ≠ 0) ∨
        (∃ x : ℚ, v = .f x ∧ x ≠ 0) ∨
        (∃ x : String, v = .s x ∧
          pyStrip (pyLower x) ∈ ["true", "1", "si", "sí", "presente", "p"]))) ∧
    (∀ cell : String, manualPresente cell = true ↔ pyStrip cell = "1") := by
  constructor
  · intro v
    cases v <;> simp [estadoToBool]
  · intro cell
    simp [manualPresente]

/-! Section: Attendance write path
(`GoogleSheetsManager.save_attendance` in `src/utils/google_sheets.py`)

The attendance spreadsheet is a dict from tab title to its list of rows
(each row a list of cells, the integer presence flag rendered as a cell);
the manager also owns a local per-course attendance cache.  Remote calls that
can raise (client construction, opening the spreadsheet, creating the
worksheet, appending the header, appending one batch of rows) are driven by
a failure oracle; a raised exception carries the state reached so far, and
the surrounding `try/except` of `save_attendance` turns it into the return
value `False`. -/

def attRow (courseName fecha est : String) (presente : Bool)
    (ts usuario : String) : List String :=
  [courseName, fecha, est, if presente then "1" else "0", ts, usuario]

def headerRow : List String :=
  ["Curso", "Fecha", "Estudiante", "Asistencia", "Timestamp", "Usuario"]

/-- `rows_to_append`: one row per `attendance_data` entry, in dict order. -/
def attRowsFor (courseName fecha : String) (att : List (String × Bool))
    (ts usuario : String) : List (List String) :=
  att.map fun p => attRow courseName fecha p.1 p.2 ts usuario

/-- `rows_to_append[i : i + n]` slicing, fuelled so that it reduces in the
kernel; the fuel is always instantiated with the list length. -/
def chunksGo (n : ℕ) : ℕ → List α → List (List α)
  | _, [] => []
  | 0, _ :: _ => []
  | fuel + 1, x :: xs => ((x :: xs).take n) :: chunksGo n fuel ((x :: xs).drop n)

def chunksOf (n : ℕ) (l : List α) : List (List α) := chunksGo n l.length l

theorem chunksGo_join (n : ℕ) (hn : 0 < n) :
    ∀ (fuel : ℕ) (l : List α), l.length ≤ fuel →
      (chunksGo n fuel l).flatten = l := by
  intro fuel
  induction fuel with
  | zero =>
    intro l hl
    have : l = [] := List.length_eq_zero.mp (Nat.le_zero.mp hl)
    subst this
    rfl
  | succ fl ih =>
    intro l hl
    cases l with
    | nil => rfl
    | cons x xs =>
      simp only [chunksGo, List.flatten_cons]
      rw [ih ((x :: xs).drop n) ?_]
      · exact List.take_append_drop n (x :: xs)
      · simp only [List.length_drop, List.length_cons] at hl ⊢
        omega

theorem chunksGo_take_join (n : ℕ) (hn : 0 < n) :
    ∀ (m fuel : ℕ) (l : List α), l.length ≤ fuel →
      ((chunksGo n fuel l).take m).flatten = l.take (n * m) := by
  intro m
  induction m with
  | zero => intro fuel l _; simp
  | succ m ih =>
    intro fuel l hl
    cases l with
    | nil =>
      cases fuel <;> simp [chunksGo]
    | cons x xs =>
      cases fuel with
      | zero => simp at hl
      | succ fl =>
        simp only [chunksGo, List.take_succ_cons, List.flatten_cons]
        rw [ih fl ((x :: xs).drop n) ?_]
        · rw [← List.take_add]
          have : n + n * m = n * (m + 1) := by ring
          rw [this]
        · simp only [List.length_drop, List.length_cons] at hl ⊢
          omega

theorem chunksOf_join (n : ℕ) (hn : 0 < n) (l : List α) :
    (chunksOf n l).flatten = l :=
  chunksGo_join n hn l.length l le_rfl

theorem chunksOf_take_join (n : ℕ) (hn : 0 < n) (l : List α) (m : ℕ) :
    ((chunksOf n l).take m).flatten = l.take (n * m) :=
  chunksGo_take_join n hn m l.length l le_rfl

/-- The remote failure points of one `save_attendance` call. -/
structure Oracle where
  clientFail : Bool
  openFail : Bool
  addSheetFail : Bool
  headerFail : Bool
  batchFail : ℕ → Bool

/-- Manager-side state: the attendance spreadsheet tabs and the local
`_attendance_cache`. -/
structure MgrState where
  tabs : List (String × List (List String))
  attendanceCache : List (String × AttLedger)

/-- `worksheet.append_rows(batch)`: extend the rows of the named tab. -/
def tabAppendRows (tabs : List (String × List (List String))) (name : String)
    (rows : List (List String)) : List (String × List (List String)) :=
  assocSet name ((assocGet name tabs).getD [] ++ rows) tabs

theorem assocGet_tabAppendRows (tabs : List (String × List (List String)))
    (name : String) (rows : List (List String)) :
    assocGet name (tabAppendRows tabs name rows)
      = some ((assocGet name tabs).getD [] ++ rows) :=
  assocGet_set_self name _ tabs

/-- The batched append loop (`for i in range(0, len(rows), 50)`), indexed by
the batch number consulted by the failure oracle; a failing batch raises,
leaving the batches already appended in place. -/
def appendBatchesSt (o : Oracle) (name : String) :
    List (String × List (List String)) → List (List (List String)) → ℕ →
    Except (List (String × List (List String)))
      (List (String × List (List String)))
  | tabs, [], _ => .ok tabs
  | tabs, b :: bs, i =>
    if o.batchFail i then .error tabs
    else appendBatchesSt o name (tabAppendRows tabs name b) bs (i + 1)

theorem appendBatchesSt_spec (o : Oracle) (name : String) :
    ∀ (bs : List (List (List String)))
      (tabs : List (String × List (List String)))
      (cur : List (List String)) (i : ℕ),
      assocGet name tabs = some cur →
      (∀ tabs₂, appendBatchesSt o name tabs bs i = .ok tabs₂ →
        assocGet name tabs₂ = some (cur ++ bs.flatten)) ∧
      (∀ tabs₂, appendBatchesSt o name tabs bs i = .error tabs₂ →
        ∃ k, k ≤ bs.length ∧
          assocGet name tabs₂ = some (cur ++ (bs.take k).flatten)) := by
  intro bs
  induction bs with
  | nil =>
    intro tabs cur i hcur
    constructor
    · intro tabs₂ hok
      injection hok with h
      subst h
      simpa using hcur
    · intro tabs₂ herr
      exact absurd herr (by simp [appendBatchesSt])
  | cons b bs ih =>
    intro tabs cur i hcur
    by_cases hf : o.batchFail i
    · constructor
      · intro tabs₂ hok
        simp [appendBatchesSt, hf] at hok
      · intro tabs₂ herr
        simp only [appendBatchesSt, if_pos hf] at herr
        injection herr with h
        subst h
        exact ⟨0, by simpa using hcur⟩
    · have hnext : assocGet name (tabAppendRows tabs name b) = some (cur ++ b) := by
        rw [assocGet_tabAppendRows, hcur]
        rfl
      have h := ih (tabAppendRows tabs name b) (cur ++ b) (i + 1) hnext
      constructor
      · intro tabs₂ hok
        simp only [appendBatchesSt, if_neg hf] at hok
        rw [h.1 tabs₂ hok]
        simp [List.append_assoc]
      · intro tabs₂ herr
        simp only [appendBatchesSt, if_neg hf] at herr
        obtain ⟨k, hk, hval⟩ := h.2 tabs₂ herr
        refine ⟨k + 1, by simpa using Nat.succ_le_succ hk, ?_⟩
        rw [hval]
        simp [List.append_assoc]

/-- The worksheet-resolution step of `save_attendance`: use the existing tab,
or create it (`add_worksheet` then a header `append_row`, either of which can
raise, the header failure leaving the freshly created empty tab behind). -/
def resolveTab (o : Oracle) (courseName : String)
    (tabs : List (String × List (List String))) :
    Except (List (String × List (List String)))
      (List (String × List (List String))) :=
  match assocGet courseName tabs with
  | some _ => .ok tabs
  | none =>
    if o.addSheetFail then .error tabs
    else
      let t₁ := assocSet courseName [] tabs
      if o.headerFail then .error t₁
      else .ok (tabAppendRows t₁ courseName [headerRow])

theorem resolveTab_ok_base (o : Oracle) (courseName : String)
    (tabs tabs₁ : List (String × List (List String)))
    (hok : resolveTab o courseName tabs = .ok tabs₁) :
    ∃ base, assocGet courseName tabs₁ = some base := by
  unfold resolveTab at hok
  rcases hcur : assocGet courseName tabs with _ | cur
  · rw [hcur] at hok
    by_cases ha : o.addSheetFail
    · simp [ha] at hok
    · by_cases hh : o.headerFail
      · simp [ha, hh] at hok
      · simp only [ha, hh, Bool.false_eq_true, if_false] at hok
        injection hok with h
        subst h
        refine ⟨[headerRow], ?_⟩
        rw [assocGet_tabAppendRows, assocGet_set_self]
        rfl
  · rw [hcur] at hok
    injection hok with h
    subst h
    exact ⟨cur, hcur⟩

/-- The body of `save_attendance` up to (but not including) the surrounding
`try/except`: an `error` result is a raised exception carrying the manager
state at the raise point; `ok (s, b)` is a normal return of `b`. -/
def saveAttendanceBody (o : Oracle) (cfg : Option String) (st : MgrState)
    (courseName fecha : String) (att : List (String × Bool))
    (ts usuario : String) : Except MgrState (MgrState × Bool) :=
  match cfg with
  | none => .ok (st, false)
  | some sheetId =>
    if o.clientFail then .error st
    else if o.openFail then .error st
    else
      match resolveTab o courseName st.tabs with
      | .error tabs₁ => .error { st with tabs := tabs₁ }
      | .ok tabs₁ =>
        match appendBatchesSt o courseName tabs₁
            (chunksOf 50 (attRowsFor courseName fecha att ts usuario)) 0 with
        | .error tabs₂ => .error { st with tabs := tabs₂ }
        | .ok tabs₂ =>
          let key := sheetId ++ "_" ++ courseName
          let cache₂ :=
            if (assocGet key st.attendanceCache).isSome then
              assocDel key st.attendanceCache
            else st.attendanceCache
          .ok ({ tabs := tabs₂, attendanceCache := cache₂ }, true)

/-- `save_attendance` itself: the `try/except Exception` wrapper that turns
any raised exception into the return value `False`. -/
def save_attendance (o : Oracle) (cfg : Option String) (st : MgrState)
    (courseName fecha : String) (att : List (String × Bool))
    (ts usuario : String) : MgrState × Bool :=
  match saveAttendanceBody o cfg st courseName fecha att ts usuario with
  | .ok r => r
  | .error s => (s, false)

/-- An attendance dict with 51 students, all present. -/
def bigAtt : List (String × Bool) := (List.range 51).map fun i => (Nat.repr i, true)

/-- All remote calls succeed except the second row batch. -/
def oracleFailSecond : Oracle := ⟨false, false, false, false, fun i => decide (i = 1)⟩

/-- A manager state whose attendance spreadsheet has one empty ledger tab. -/
def stOneTab : MgrState := ⟨[("4A", [])], []⟩

/-- Claim C9, counterexample: recording attendance for 51 students is split
into batches of 50; when the second batch append raises, `save_attendance`
returns `False` but the ledger tab is left holding exactly the first 50 rows -
a proper non-empty subset of the rows of that write. -/
theorem save_attendance_partial_append :
    (save_attendance oracleFailSecond (some "SID") stOneTab "4A" "d" bigAtt
        "ts" "u").2 = false ∧
      assocGet "4A" (save_attendance oracleFailSecond (some "SID") stOneTab
          "4A" "d" bigAtt "ts" "u").1.tabs
        = some ((attRowsFor "4A" "d" bigAtt "ts" "u").take 50) ∧
      (attRowsFor "4A" "d" bigAtt "ts" "u").take 50 ≠ [] ∧
      (attRowsFor "4A" "d" bigAtt "ts" "u").take 50
        ≠ attRowsFor "4A" "d" bigAtt "ts" "u" := by
  decide

/-- Claim C9 (amended): whenever the ledger tab for the course exists, the
rows left by a `save_attendance` call are always the original tab contents
followed by a whole number of 50-row batches of the prepared rows: a
successful call appends exactly all rows, and a failed call leaves a
batch-aligned prefix appended, which for writes of at most 50 students means
the write is atomic (nothing or everything), but for larger writes can be a
proper non-empty subset. -/
theorem save_attendance_batch_alignment (o : Oracle) (cfg : Option String)
    (st : MgrState) (courseName fecha : String) (att : List (String × Bool))
    (ts usuario : String) (cur : List (List String))
    (hcur : assocGet courseName st.tabs = some cur) :
    (∃ k, assocGet courseName
        (save_attendance o cfg st courseName fecha att ts usuario).1.tabs
        = some (cur ++ (attRowsFor courseName fecha att ts usuario).take (50 * k))) ∧
      ((save_attendance o cfg st courseName fecha att ts usuario).2 = true →
        assocGet courseName
            (save_attendance o cfg st courseName fecha att ts usuario).1.tabs
          = some (cur ++ attRowsFor courseName fecha att ts usuario)) ∧
      (att.length ≤ 50 →
        assocGet courseName
            (save_attendance o cfg st courseName fecha att ts usuario).1.tabs
          = some cur ∨
        assocGet courseName
            (save_attendance o cfg st courseName fecha att ts usuario).1.tabs
          = some (cur ++ attRowsFor courseName fecha att ts usuario)) := by
  have hlen : (attRowsFor courseName fecha att ts usuario).length = att.length :=
    List.length_map _ _
  -- a small helper for the no-append cases
  have hk0 : some cur
      = some (cur ++ (attRowsFor courseName fecha att ts usuario).take (50 * 0)) := by
    simp
  rcases cfg with _ | sheetId
  · have hsave : save_attendance o none st courseName fecha att ts usuario
        = (st, false) := rfl
    rw [hsave]
    exact ⟨⟨0, by rw [hcur, hk0]⟩, by intro h; simp at h, fun _ => Or.inl hcur⟩
  · by_cases hcf : o.clientFail
    · have hsave : save_attendance o (some sheetId) st courseName fecha att ts
          usuario = (st, false) := by
        simp [save_attendance, saveAttendanceBody, hcf]
      rw [hsave]
      exact ⟨⟨0, by rw [hcur, hk0]⟩, by intro h; simp at h, fun _ => Or.inl hcur⟩
    · by_cases hof : o.openFail
      · have hsave : save_attendance o (some sheetId) st courseName fecha att ts
            usuario = (st, false) := by
          simp [save_attendance, saveAttendanceBody, hcf, hof]
        rw [hsave]
        exact ⟨⟨0, by rw [hcur, hk0]⟩, by intro h; simp at h, fun _ => Or.inl hcur⟩
      · have hrt : resolveTab o courseName st.tabs = .ok st.tabs := by
          unfold resolveTab
          rw [hcur]
        rcases hab : appendBatchesSt o courseName st.tabs
            (chunksOf 50 (attRowsFor courseName fecha att ts usuario)) 0
          with tabs₂ | tabs₂
        · -- a batch raised: a batch-aligned prefix was appended
          have hsave : save_attendance o (some sheetId) st courseName fecha att
              ts usuario = ({ st with tabs := tabs₂ }, false) := by
            simp [save_attendance, saveAttendanceBody, hcf, hof, hrt, hab]
          obtain ⟨k, _, hval⟩ := (appendBatchesSt_spec o courseName
            (chunksOf 50 (attRowsFor courseName fecha att ts usuario))
            st.tabs cur 0 hcur).2 tabs₂ hab
          rw [chunksOf_take_join 50 (by norm_num)] at hval
          rw [hsave]
          refine ⟨⟨k, hval⟩, by intro h; simp at h, ?_⟩
          intro hatt
          rcases Nat.eq_zero_or_pos k with hk | hk
          · subst hk
            left
            rw [hval]
            simp
          · right
            rw [hval, List.take_of_length_le (by omega)]
        · -- all batches appended, the call returns True
          have hsave : save_attendance o (some sheetId) st courseName fecha att
              ts usuario
              = ({ tabs := tabs₂,
                   attendanceCache :=
                     if (assocGet (sheetId ++ "_" ++ courseName)
                         st.attendanceCache).isSome then
                       assocDel (sheetId ++ "_" ++ courseName) st.attendanceCache
                     else st.attendanceCache }, true) := by
            simp [save_attendance, saveAttendanceBody, hcf, hof, hrt, hab]
          have hval := (appendBatchesSt_spec o courseName
            (chunksOf 50 (attRowsFor courseName fecha att ts usuario))
            st.tabs cur 0 hcur).1 tabs₂ hab
          rw [chunksOf_join 50 (by norm_num)] at hval
          rw [hsave]
          refine ⟨⟨(attRowsFor courseName fecha att ts usuario).length, ?_⟩,
            fun _ => hval, fun _ => Or.inr hval⟩
          rw [hval, List.take_of_length_le (by omega)]

/-- Claim C10: `save_attendance` never propagates an exception - a raise at
any internal failure point is caught and turned into the return value
`False`, missing configuration returns `False` without touching the state,
and the call returns `True` only when the prepared rows were all appended to
the course tab and the local attendance-cache entry for the course is absent
afterwards (invalidated if it was present).  The no-duplicate-keys hypothesis
reflects that `_attendance_cache` is a Python dict. -/
theorem save_attendance_wrapper_spec (o : Oracle) (cfg : Option String)
    (st : MgrState) (courseName fecha : String) (att : List (String × Bool))
    (ts usuario : String)
    (hnodup : (st.attendanceCache.map Prod.fst).Nodup) :
    (∀ s, saveAttendanceBody o cfg st courseName fecha att ts usuario
        = .error s →
      save_attendance o cfg st courseName fecha att ts usuario = (s, false)) ∧
    (cfg = none →
      save_attendance o cfg st courseName fecha att ts usuario = (st, false)) ∧
    ((save_attendance o cfg st courseName fecha att ts usuario).2 = true →
      ∃ sheetId base, cfg = some sheetId ∧
        assocGet courseName
            (save_attendance o cfg st courseName fecha att ts usuario).1.tabs
          = some (base ++ attRowsFor courseName fecha att ts usuario) ∧
        assocGet (sheetId ++ "_" ++ courseName)
            (save_attendance o cfg st courseName fecha att ts
              usuario).1.attendanceCache
          = none) := by
  refine ⟨?_, ?_, ?_⟩
  · intro s hs
    simp [save_attendance, hs]
  · rintro rfl
    rfl
  · intro htrue
    rcases cfg with _ | sheetId
    · simp [save_attendance, saveAttendanceBody] at htrue
    · by_cases hcf : o.clientFail
      · simp [save_attendance, saveAttendanceBody, hcf] at htrue
      · by_cases hof : o.openFail
        · simp [save_attendance, saveAttendanceBody, hcf, hof] at htrue
        · rcases hrt : resolveTab o courseName st.tabs with tabs₁ | tabs₁
          · simp [save_attendance, saveAttendanceBody, hcf, hof, hrt] at htrue
          · rcases hab : appendBatchesSt o courseName tabs₁
                (chunksOf 50 (attRowsFor courseName fecha att ts usuario)) 0
              with tabs₂ | tabs₂
            · simp [save_attendance, saveAttendanceBody, hcf, hof, hrt, hab]
                at htrue
            · have hsave : save_attendance o (some sheetId) st courseName fecha
                  att ts usuario
                  = ({ tabs := tabs₂,
                       attendanceCache :=
                         if (assocGet (sheetId ++ "_" ++ courseName)
                             st.attendanceCache).isSome then
                           assocDel (sheetId ++ "_" ++ courseName)
                             st.attendanceCache
                         else st.attendanceCache }, true) := by
                simp [save_attendance, saveAttendanceBody, hcf, hof, hrt, hab]
              obtain ⟨base, hbase⟩ :=
                resolveTab_ok_base o courseName st.tabs tabs₁ hrt
              have hval := (appendBatchesSt_spec o courseName
                (chunksOf 50 (attRowsFor courseName fecha att ts usuario))
                tabs₁ base 0 hbase).1 tabs₂ hab
              rw [chunksOf_join 50 (by norm_num)] at hval
              refine ⟨sheetId, base, rfl, ?_, ?_⟩
              · rw [hsave]
                exact hval
              · rw [hsave]
                by_cases hk : (assocGet (sheetId ++ "_" ++ courseName)
                    st.attendanceCache).isSome
                · simp only [if_pos hk]
                  exact assocGet_del_self _ hnodup
                · simp only [if_neg hk]
                  exact Option.not_isSome_iff_eq_none.mp hk

/-- All remote calls succeed. -/
def oracleAllOk : Oracle := ⟨false, false, false, false, fun _ => false⟩

/-- A manager state with one empty ledger tab and a cached ledger entry for
the course under the key the manager will invalidate. -/
def stWitness : MgrState :=
  ⟨[("4A", [])], [("S_4A", [("ana", [("d", true)])])]⟩

/-- Witness for `save_attendance_batch_alignment`: a successful one-student
write on `stWitness`. -/
theorem save_attendance_batch_alignment_witness :
    ∃ k, assocGet "4A" (save_attendance oracleAllOk (some "S") stWitness "4A"
        "d" [("ana", true)] "ts" "u").1.tabs
      = some ([] ++ (attRowsFor "4A" "d" [("ana", true)] "ts" "u").take (50 * k)) := by
  have h := save_attendance_batch_alignment oracleAllOk (some "S") stWitness
    "4A" "d" [("ana", true)] "ts" "u" [] (by decide)
  exact h.1

/-- Witness for `save_attendance_wrapper_spec`: the same successful write
returns `True`, has appended the row, and has dropped the cache entry. -/
theorem save_attendance_wrapper_spec_witness :
    (save_attendance oracleAllOk (some "S") stWitness "4A" "d" [("ana", true)]
        "ts" "u").2 = true ∧
      (∃ sheetId base, (some "S") = some sheetId ∧
        assocGet "4A" (save_attendance oracleAllOk (some "S") stWitness "4A"
            "d" [("ana", true)] "ts" "u").1.tabs
          = some (base ++ attRowsFor "4A" "d" [("ana", true)] "ts" "u") ∧
        assocGet (sheetId ++ "_" ++ "4A") (save_attendance oracleAllOk
            (some "S") stWitness "4A" "d" [("ana", true)] "ts"
            "u").1.attendanceCache
          = none) := by
  have h := save_attendance_wrapper_spec oracleAllOk (some "S") stWitness "4A"
    "d" [("ana", true)] "ts" "u" (by decide)
  have ht : (save_attendance oracleAllOk (some "S") stWitness "4A" "d"
      [("ana", true)] "ts" "u").2 = true := by decide
  exact ⟨ht, h.2.2 ht⟩

end ASISCIMMA
